import Mathlib

/-!
Verification development for the oeis-utils catalog loader (`src/lib.rs`).

The file embeds, as executable Lean definitions, the three components of the
crate: the term classifier (the closure inside `Series::from_str` that maps a
segment to `NumberValue::InRange(i128)` or `NumberValue::OutOfRange(BigInt)`),
the record parser `Series::from_str` built around the regular expression
`A(?P<Id>\d{6}) (?P<vals>[,\-?\d*,]+),`, and the loader
`OEISDatabase::from_path` (modelled at the level of its line list: file
opening and per-line I/O errors are outside the embedded fragment).

Machine integers are embedded as `Nat`/`Int` with explicit range checks:
`i128` parsing computes the exact integer and then checks the
`[-2^127, 2^127-1]` window, which yields the same `Option` result as Rust's
overflow-checked accumulation.
-/

/-- Test for an ASCII decimal digit `'0'..'9'` (code points 48..57): the
digit test of Rust's integer `FromStr` (`str::parse` for `i128`/`u32`) and of
`BigInt::parse_bytes` at radix 10, all of which accept ASCII digits only. -/
def isDigitB (c : Char) : Bool := 48 ≤ c.toNat && c.toNat ≤ 57

/-- Numeric value of an ASCII digit character. -/
def charDigit (c : Char) : Nat := c.toNat - 48

/-- Scalar ranges of the Unicode general category Nd (Decimal_Number),
per the Unicode character database bundled with the regex crate (Unicode
15.0 here): the ASCII digits plus every other script's decimal-digit run. -/
def ndTable : List (Nat × Nat) :=
  [(0x0030, 0x0039), (0x0660, 0x0669), (0x06F0, 0x06F9), (0x07C0, 0x07C9),
   (0x0966, 0x096F), (0x09E6, 0x09EF), (0x0A66, 0x0A6F), (0x0AE6, 0x0AEF),
   (0x0B66, 0x0B6F), (0x0BE6, 0x0BEF), (0x0C66, 0x0C6F), (0x0CE6, 0x0CEF),
   (0x0D66, 0x0D6F), (0x0DE6, 0x0DEF), (0x0E50, 0x0E59), (0x0ED0, 0x0ED9),
   (0x0F20, 0x0F29), (0x1040, 0x1049), (0x1090, 0x1099), (0x17E0, 0x17E9),
   (0x1810, 0x1819), (0x1946, 0x194F), (0x19D0, 0x19D9), (0x1A80, 0x1A89),
   (0x1A90, 0x1A99), (0x1B50, 0x1B59), (0x1BB0, 0x1BB9), (0x1C40, 0x1C49),
   (0x1C50, 0x1C59), (0xA620, 0xA629), (0xA8D0, 0xA8D9), (0xA900, 0xA909),
   (0xA9D0, 0xA9D9), (0xA9F0, 0xA9F9), (0xAA50, 0xAA59), (0xABF0, 0xABF9),
   (0xFF10, 0xFF19), (0x104A0, 0x104A9), (0x10D30, 0x10D39),
   (0x11066, 0x1106F), (0x110F0, 0x110F9), (0x11136, 0x1113F),
   (0x111D0, 0x111D9), (0x112F0, 0x112F9), (0x11450, 0x11459),
   (0x114D0, 0x114D9), (0x11650, 0x11659), (0x116C0, 0x116C9),
   (0x11730, 0x11739), (0x118E0, 0x118E9), (0x11950, 0x11959),
   (0x11C50, 0x11C59), (0x11D50, 0x11D59), (0x11DA0, 0x11DA9),
   (0x11F50, 0x11F59), (0x16A60, 0x16A69), (0x16AC0, 0x16AC9),
   (0x16B50, 0x16B59), (0x1D7CE, 0x1D7FF), (0x1E140, 0x1E149),
   (0x1E2F0, 0x1E2F9), (0x1E4F0, 0x1E4F9), (0x1E950, 0x1E959),
   (0x1FBF0, 0x1FBF9)]

/-- Model of the regex crate's default Unicode-aware `\d`: membership in the
general category Nd.  The exact margin of `ndTable` tracks the Unicode
version the regex crate bundles; no theorem below depends on that margin —
the general theorems hold for any digit set, and the concrete inputs use
only ASCII digits and the Arabic-Indic digits U+0660..U+0669, which are Nd
in every Unicode version. -/
def regexDigit (c : Char) : Bool :=
  ndTable.any (fun p => p.1 ≤ c.toNat && c.toNat ≤ p.2)

/-- Membership in the character class `[,\-?\d*,]` of the line regex in
`Series::from_str` (lib.rs line 70).  Inside a character class `?` and `*`
are ordinary literal members, so the class is: comma, minus, question mark,
asterisk, or any Unicode decimal digit. -/
def inClass (c : Char) : Bool :=
  c = ',' || c = '-' || c = '?' || c = '*' || regexDigit c

/-- Mathematical value of a digit string, most significant digit first. -/
def decValue (l : List Char) : Nat :=
  Nat.ofDigits 10 ((l.map charDigit).reverse)

/-- Accumulating decimal parse of a digit run, as performed by Rust's
integer `FromStr`: fails on the first non-digit character. -/
def parseDigitsAux : Nat → List Char → Option Nat
  | acc, [] => some acc
  | acc, c :: cs =>
    if isDigitB c then parseDigitsAux (10 * acc + charDigit c) cs else none

/-- Parse a non-empty all-digit string; the empty string is an error, as in
Rust's `str::parse`. -/
def parseAsciiDigits : List Char → Option Nat
  | [] => none
  | l@(_ :: _) => parseDigitsAux 0 l

/-- Syntax accepted by Rust's signed-integer `FromStr`: one optional `+` or
`-` sign, then one or more ASCII digits.  Returns the exact mathematical
value; range checking is layered on top (see `parseI128`). -/
def parseSignedAscii : List Char → Option Int
  | [] => none
  | c :: rest =>
    if c = '-' then (parseAsciiDigits rest).map (fun n => -(n : Int))
    else if c = '+' then (parseAsciiDigits rest).map (fun n => (n : Int))
    else (parseAsciiDigits (c :: rest)).map (fun n => (n : Int))

/-- Lower bound of the native wide signed range, `i128::MIN = -2^127`. -/
def i128Min : Int := -170141183460469231731687303715884105728

/-- Upper bound of the native wide signed range, `i128::MAX = 2^127 - 1`. -/
def i128Max : Int := 170141183460469231731687303715884105727

/-- Model of `s.parse::<i128>()`: `some v` exactly when the text is a
well-formed signed decimal whose value fits in the 128-bit signed range. -/
def parseI128 (l : List Char) : Option Int :=
  (parseSignedAscii l).bind fun v =>
    if i128Min ≤ v ∧ v ≤ i128Max then some v else none

/-- Digit accumulation of `num_bigint`'s radix-10 `from_str_radix`: interior
underscores are skipped, any other non-digit character is an error. -/
def parseBigDigitsAux : Nat → List Char → Option Nat
  | acc, [] => some acc
  | acc, c :: cs =>
    if c = '_' then parseBigDigitsAux acc cs
    else if isDigitB c then parseBigDigitsAux (10 * acc + charDigit c) cs
    else none

/-- Unsigned body of a `BigInt` decimal literal: non-empty and not starting
with an underscore. -/
def parseBigBody : List Char → Option Nat
  | [] => none
  | c :: rest => if c = '_' then none else parseBigDigitsAux 0 (c :: rest)

/-- Model of `BigUint::from_str_radix` at radix 10: strips one leading `+`
(unless doubled), then parses the digit body. -/
def parseBigUint : List Char → Option Nat
  | [] => none
  | c :: tail =>
    if c = '+' then if tail.head? = some '+' then none else parseBigBody tail
    else parseBigBody (c :: tail)

/-- Model of `BigInt::parse_bytes(_, 10)`: strips one leading `-` (unless
followed by `+`), then parses an unsigned body. -/
def parseBigInt : List Char → Option Int
  | [] => none
  | c :: tail =>
    if c = '-' then
      if tail.head? = some '+' then none
      else (parseBigUint tail).map (fun n => -(n : Int))
    else (parseBigUint (c :: tail)).map (fun n => (n : Int))

/-- The two-variant numeric value of lib.rs lines 44-48.  `InRange` carries
what Rust stores in an `i128` (so, by that type, always a value of the native
wide range); `OutOfRange` carries an unrestricted `BigInt`. -/
inductive NumberValue where
  | InRange (v : Int)
  | OutOfRange (v : Int)
  deriving DecidableEq

/-- Term classifier: the closure of lib.rs lines 84-89.  `none` models the
`BigInt::parse_bytes(..).unwrap()` panic on a segment that neither integer
parser accepts. -/
def classifySeg (l : List Char) : Option NumberValue :=
  match parseI128 l with
  | some n => some (.InRange n)
  | none => (parseBigInt l).map NumberValue.OutOfRange

/-- The classifier on ordinary strings. -/
def classify (s : String) : Option NumberValue := classifySeg s.data

/-- Model of the derived `PartialEq` on `NumberValue` (lib.rs line 44): a
derived enum equality compares discriminants first, so values of different
variants are never equal. -/
def NumberValue.derivedEq : NumberValue → NumberValue → Bool
  | .InRange a, .InRange b => a == b
  | .OutOfRange a, .OutOfRange b => a == b
  | _, _ => false

/-- One catalog record (`Series`, lib.rs lines 50-54).  The `u32` id field is
embedded as a `Nat`; `Series.fromStr` performs the `u32` range check of
`parse::<u32>()` explicitly. -/
structure Series where
  id : Nat
  values : List NumberValue
  deriving DecidableEq

/-- Outcome of `Series::from_str`.  `noMatch` is the returned `Err(())` — a
payload-free unit value, hence a nullary constructor.  The two panic
constructors model the `unwrap()` panics inside the `Ok` path: a term segment
rejected by both integer parsers, and a captured id rejected by
`parse::<u32>()` (which happens when the six `\d`-matched digits are not all
ASCII; the overflow case cannot arise for six digits). -/
inductive ParseResult where
  | ok (s : Series)
  | noMatch
  | panicMalformedNumber
  | panicIdParse
  deriving DecidableEq

/-- Whether a parse outcome produced a record. -/
def ParseResult.isOk : ParseResult → Bool
  | .ok _ => true
  | _ => false

/-- Index of the last comma of a string, if any. -/
def lastCommaIdx : List Char → Option Nat
  | [] => none
  | c :: rest =>
    match lastCommaIdx rest with
    | some k => some (k + 1)
    | none => if c = ',' then some 0 else none

/-- Where the greedy `(?P<vals>[,\-?\d*,]+),` suffix ends inside the maximal
class run `r`: the final literal comma consumes the last comma of `r`, and
the one-or-more group needs at least one preceding character, so the capture
ends at the last comma index provided it is at least 1. -/
def valsEnd (r : List Char) : Option Nat :=
  match lastCommaIdx r with
  | some k => if 1 ≤ k then some k else none
  | none => none

/-- Attempt to match `A(?P<Id>\d{6}) (?P<vals>[,\-?\d*,]+),` at the head of
the text, returning the two captures (id digits, vals).  After the literal
`A`, exactly six decimal digits (`\d` = Unicode Nd, `regexDigit`) and a
space; then the greedy one-or-more class run with backtracking for the final
literal comma (`valsEnd`). -/
def tryMatch : List Char → Option (List Char × List Char)
  | [] => none
  | c :: rest =>
    if c = 'A' then
      if (rest.take 6).length = 6 && (rest.take 6).all regexDigit then
        if (rest.drop 6).head? = some ' ' then
          match valsEnd (((rest.drop 6).tail).takeWhile inClass) with
          | some k => some (rest.take 6, (((rest.drop 6).tail).takeWhile inClass).take k)
          | none => none
        else none
      else none
    else none

/-- Model of `RE.captures(s)`: the regex engine's leftmost match — try the
pattern at each successive start position and keep the first success. -/
def regexCaptures : List Char → Option (List Char × List Char)
  | [] => none
  | c :: rest =>
    match tryMatch (c :: rest) with
    | some m => some m
    | none => regexCaptures rest

/-- Model of Rust's `str::split(',')`: segments between commas, empty
segments included (the empty string yields one empty segment). -/
def splitComma : List Char → List (List Char)
  | [] => [[]]
  | c :: rest =>
    if c = ',' then [] :: splitComma rest
    else
      match splitComma rest with
      | [] => [[c]]
      | seg :: segs => (c :: seg) :: segs

/-- Classify every segment in order; `none` as soon as one segment panics,
as the iterator in `Series::from_str` would. -/
def classifyAll : List (List Char) → Option (List NumberValue)
  | [] => some []
  | seg :: rest =>
    match classifySeg seg with
    | none => none
    | some v => (classifyAll rest).map (fun vs => v :: vs)

/-- Model of `m.name("Id").unwrap().as_str().parse::<u32>()`: digits parse
plus the `u32` range check. -/
def parseIdNat (ds : List Char) : Option Nat :=
  (parseAsciiDigits ds).bind fun n => if n < 4294967296 then some n else none

/-- Embedding of `Series::from_str` (lib.rs lines 68-94): regex capture, id
conversion, then comma split with empty segments filtered out and each
remaining segment classified. -/
def Series.fromStr (s : String) : ParseResult :=
  match regexCaptures s.data with
  | none => .noMatch
  | some (ds, vs) =>
    match parseIdNat ds with
    | none => .panicIdParse
    | some n =>
      match classifyAll ((splitComma vs).filter (fun seg => !seg.isEmpty)) with
      | none => .panicMalformedNumber
      | some values => .ok ⟨n, values⟩

/-- Model of `s.starts_with('#')` on a line. -/
def startsWithHash (s : String) : Bool :=
  match s.data with
  | [] => false
  | c :: _ => c = '#'

/-- Parse a run of candidate data lines, as the iterator chain of
`OEISDatabase::from_path` does: `none` (the `unwrap` panic, no database at
all) as soon as one line fails, otherwise the records in source order. -/
def parseAll : List String → Option (List Series)
  | [] => some []
  | line :: rest =>
    match Series.fromStr line with
    | .ok s => (parseAll rest).map (fun ss => s :: ss)
    | _ => none

/-- Embedding of the successfully-opened branch of `OEISDatabase::from_path`
(lib.rs lines 30-35) over the file's line list: `skip_while(starts_with('#'))`
then parse every remaining line. -/
def loadLines (ls : List String) : Option (List Series) :=
  parseAll (ls.dropWhile startsWithHash)

/-- Character of a decimal digit value. -/
def digitToChar (d : Nat) : Char :=
  if d = 0 then '0'
  else if d = 1 then '1'
  else if d = 2 then '2'
  else if d = 3 then '3'
  else if d = 4 then '4'
  else if d = 5 then '5'
  else if d = 6 then '6'
  else if d = 7 then '7'
  else if d = 8 then '8'
  else '9'

/-- Decimal rendering of a natural number, most significant digit first. -/
def natDecChars (n : Nat) : List Char :=
  if n = 0 then ['0'] else (Nat.digits 10 n).reverse.map digitToChar

/-- Decimal rendering of an integer: a leading minus for negatives, then the
digits of the absolute value.  This is how `i128` and `BigInt` both `Display`
themselves in Rust. -/
def intDecChars (v : Int) : List Char :=
  if v < 0 then '-' :: natDecChars v.natAbs else natDecChars v.natAbs

/-- Modelled from the spec: formatting a `NumericValue` "back to decimal
text" (§8 round-trip property).  The crate itself has no formatter; both
variants render via the standard decimal `Display` of their payload. -/
def formatValue : NumberValue → String
  | .InRange v => ⟨intDecChars v⟩
  | .OutOfRange v => ⟨intDecChars v⟩

/-- The substring shape the spec gives the classifier: an optional leading
minus sign followed by one or more decimal digits. -/
def isSignedDecimal (l : List Char) : Bool :=
  match l with
  | [] => false
  | c :: rest =>
    if c = '-' then !rest.isEmpty && rest.all isDigitB
    else (c :: rest).all isDigitB

/-- Mathematical value denoted by an optional-minus-then-digits substring. -/
def strMathVal (l : List Char) : Int :=
  match l with
  | [] => (decValue [] : Int)
  | c :: rest =>
    if c = '-' then -(decValue rest : Int) else (decValue (c :: rest) : Int)

/-! ### Digit-run parsing agrees with the mathematical decimal value -/

theorem decValue_nil : decValue [] = 0 := by
  simp [decValue, Nat.ofDigits]

theorem decValue_cons (c : Char) (cs : List Char) :
    decValue (c :: cs) = charDigit c * 10 ^ cs.length + decValue cs := by
  unfold decValue
  rw [List.map_cons, List.reverse_cons, Nat.ofDigits_append]
  simp [Nat.ofDigits_singleton]
  ring

theorem charDigit_le_nine (c : Char) (h : isDigitB c = true) : charDigit c ≤ 9 := by
  unfold isDigitB at h
  rw [Bool.and_eq_true, decide_eq_true_eq, decide_eq_true_eq] at h
  unfold charDigit
  omega

theorem decValue_lt (l : List Char) (h : l.all isDigitB = true) :
    decValue l < 10 ^ l.length := by
  induction l with
  | nil => simp [decValue_nil]
  | cons c cs ih =>
    rw [List.all_cons, Bool.and_eq_true] at h
    have hc := charDigit_le_nine c h.1
    have ihh := ih h.2
    rw [decValue_cons]
    calc charDigit c * 10 ^ cs.length + decValue cs
        < charDigit c * 10 ^ cs.length + 10 ^ cs.length := by omega
      _ = (charDigit c + 1) * 10 ^ cs.length := by ring
      _ ≤ 10 * 10 ^ cs.length := by
          have : charDigit c + 1 ≤ 10 := by omega
          exact Nat.mul_le_mul_right _ this
      _ = 10 ^ (c :: cs).length := by rw [List.length_cons, pow_succ]; ring

theorem parseDigitsAux_eq (l : List Char) (h : l.all isDigitB = true) :
    ∀ acc, parseDigitsAux acc l = some (acc * 10 ^ l.length + decValue l) := by
  induction l with
  | nil => intro acc; simp [parseDigitsAux, decValue_nil]
  | cons c cs ih =>
    intro acc
    rw [List.all_cons, Bool.and_eq_true] at h
    rw [parseDigitsAux, if_pos h.1, ih h.2]
    congr 1
    rw [decValue_cons, List.length_cons]
    ring

theorem parseAsciiDigits_eq (l : List Char) (h1 : l ≠ []) (h2 : l.all isDigitB = true) :
    parseAsciiDigits l = some (decValue l) := by
  cases l with
  | nil => exact absurd rfl h1
  | cons c cs =>
    rw [show parseAsciiDigits (c :: cs) = parseDigitsAux 0 (c :: cs) from rfl]
    rw [parseDigitsAux_eq _ h2]
    simp

theorem isDigitB_ne_minus (c : Char) (h : isDigitB c = true) : c ≠ '-' := by
  intro e; subst e; exact absurd h (by decide)

theorem isDigitB_ne_plus (c : Char) (h : isDigitB c = true) : c ≠ '+' := by
  intro e; subst e; exact absurd h (by decide)

theorem isDigitB_ne_underscore (c : Char) (h : isDigitB c = true) : c ≠ '_' := by
  intro e; subst e; exact absurd h (by decide)

theorem parseBigDigitsAux_eq (l : List Char) (h : l.all isDigitB = true) :
    ∀ acc, parseBigDigitsAux acc l = parseDigitsAux acc l := by
  induction l with
  | nil => intro acc; rfl
  | cons c cs ih =>
    intro acc
    rw [List.all_cons, Bool.and_eq_true] at h
    rw [parseBigDigitsAux, parseDigitsAux,
      if_neg (by exact fun e => isDigitB_ne_underscore c h.1 e), if_pos h.1, if_pos h.1,
      ih h.2]

theorem parseBigBody_eq (l : List Char) (h1 : l ≠ []) (h2 : l.all isDigitB = true) :
    parseBigBody l = some (decValue l) := by
  cases l with
  | nil => exact absurd rfl h1
  | cons c cs =>
    have hc : isDigitB c = true := by
      rw [List.all_cons, Bool.and_eq_true] at h2; exact h2.1
    rw [parseBigBody, if_neg (by exact fun e => isDigitB_ne_underscore c hc e),
      parseBigDigitsAux_eq _ h2, parseDigitsAux_eq _ h2]
    simp

/-! ### The two integer parsers agree with the denoted value on well-formed
signed decimal substrings -/

theorem parseSignedAscii_eq (l : List Char) (h : isSignedDecimal l = true) :
    parseSignedAscii l = some (strMathVal l) := by
  cases l with
  | nil => exact absurd h (by decide)
  | cons c cs =>
    by_cases hc : c = '-'
    · subst hc
      rw [isSignedDecimal, if_pos rfl, Bool.and_eq_true] at h
      have hne : cs ≠ [] := by
        intro e; subst e; exact absurd h.1 (by decide)
      rw [parseSignedAscii, if_pos rfl, parseAsciiDigits_eq cs hne h.2]
      rw [strMathVal, if_pos rfl]
      rfl
    · rw [isSignedDecimal, if_neg hc] at h
      have hdig : isDigitB c = true := by
        rw [List.all_cons, Bool.and_eq_true] at h; exact h.1
      rw [parseSignedAscii, if_neg hc, if_neg (isDigitB_ne_plus c hdig),
        parseAsciiDigits_eq (c :: cs) (by simp) h]
      rw [strMathVal, if_neg hc]
      rfl

theorem parseBigInt_eq (l : List Char) (h : isSignedDecimal l = true) :
    parseBigInt l = some (strMathVal l) := by
  cases l with
  | nil => exact absurd h (by decide)
  | cons c cs =>
    by_cases hc : c = '-'
    · subst hc
      rw [isSignedDecimal, if_pos rfl, Bool.and_eq_true] at h
      have hne : cs ≠ [] := by
        intro e; subst e; exact absurd h.1 (by decide)
      have hhead : cs.head? ≠ some '+' := by
        cases cs with
        | nil => simp
        | cons c0 cs0 =>
          have hd : isDigitB c0 = true := by
            rw [List.all_cons, Bool.and_eq_true] at h
            exact h.2.1
          simp [isDigitB_ne_plus c0 hd]
      have hbu : parseBigUint cs = some (decValue cs) := by
        cases cs with
        | nil => exact absurd rfl hne
        | cons c0 cs0 =>
          have hd : isDigitB c0 = true := by
            have := h.2; rw [List.all_cons, Bool.and_eq_true] at this; exact this.1
          rw [parseBigUint, if_neg (isDigitB_ne_plus c0 hd),
            parseBigBody_eq _ (by simp) h.2]
      rw [parseBigInt, if_pos rfl, if_neg hhead, hbu]
      rw [strMathVal, if_pos rfl]
      rfl
    · rw [isSignedDecimal, if_neg hc] at h
      have hdig : isDigitB c = true := by
        rw [List.all_cons, Bool.and_eq_true] at h; exact h.1
      rw [parseBigInt, if_neg hc, parseBigUint, if_neg (isDigitB_ne_plus c hdig),
        parseBigBody_eq (c :: cs) (by simp) h]
      rw [strMathVal, if_neg hc]
      rfl

/-! ### Classifier correctness -/

theorem classifySeg_in (l : List Char) (h : isSignedDecimal l = true)
    (h1 : i128Min ≤ strMathVal l) (h2 : strMathVal l ≤ i128Max) :
    classifySeg l = some (.InRange (strMathVal l)) := by
  have : parseI128 l = some (strMathVal l) := by
    rw [parseI128, parseSignedAscii_eq l h, Option.some_bind, if_pos ⟨h1, h2⟩]
  rw [classifySeg, this]

theorem classifySeg_out (l : List Char) (h : isSignedDecimal l = true)
    (hout : strMathVal l < i128Min ∨ i128Max < strMathVal l) :
    classifySeg l = some (.OutOfRange (strMathVal l)) := by
  have : parseI128 l = none := by
    rw [parseI128, parseSignedAscii_eq l h, Option.some_bind, if_neg (by omega)]
  rw [classifySeg, this, parseBigInt_eq l h]
  rfl

/-- C1: every substring of the form optional minus sign then decimal digits
whose mathematical value fits in the 128-bit signed range classifies as
`InRange` of exactly that value. -/
theorem c1_classify_in_range (s : String) (h : isSignedDecimal s.data = true)
    (h1 : i128Min ≤ strMathVal s.data) (h2 : strMathVal s.data ≤ i128Max) :
    classify s = some (.InRange (strMathVal s.data)) :=
  classifySeg_in s.data h h1 h2

theorem c1_witness :
    isSignedDecimal "-12".data = true ∧
      classify "-12" = some (.InRange (strMathVal "-12".data)) :=
  ⟨by decide, c1_classify_in_range "-12" (by decide) (by decide) (by decide)⟩

/-- C2: every substring of the form optional minus sign then decimal digits
whose mathematical value lies outside the 128-bit signed range classifies as
`OutOfRange` of exactly that value, with no precision loss. -/
theorem c2_classify_out_of_range (s : String) (h : isSignedDecimal s.data = true)
    (hout : strMathVal s.data < i128Min ∨ i128Max < strMathVal s.data) :
    classify s = some (.OutOfRange (strMathVal s.data)) :=
  classifySeg_out s.data h hout

set_option maxRecDepth 4000 in
theorem c2_witness :
    isSignedDecimal "1000000000000000000000000000000000000000".data = true ∧
      classify "1000000000000000000000000000000000000000" =
        some (.OutOfRange (strMathVal "1000000000000000000000000000000000000000".data)) :=
  ⟨by decide,
    c2_classify_out_of_range "1000000000000000000000000000000000000000" (by decide)
      (by decide)⟩

/-! ### Loader behaviour -/

theorem parseAll_none (ls : List String)
    (h : ∃ l ∈ ls, (Series.fromStr l).isOk = false) : parseAll ls = none := by
  induction ls with
  | nil => obtain ⟨l, hmem, _⟩ := h; exact absurd hmem (List.not_mem_nil l)
  | cons hd tl ih =>
    obtain ⟨l, hmem, hfail⟩ := h
    rcases List.mem_cons.mp hmem with he | htl
    · subst he
      cases hres : Series.fromStr l with
      | ok s => rw [hres] at hfail; exact absurd hfail (by simp [ParseResult.isOk])
      | noMatch => simp [parseAll, hres]
      | panicMalformedNumber => simp [parseAll, hres]
      | panicIdParse => simp [parseAll, hres]
    · cases hres : Series.fromStr hd with
      | ok s => simp [parseAll, hres, ih ⟨l, htl, hfail⟩]
      | noMatch => simp [parseAll, hres]
      | panicMalformedNumber => simp [parseAll, hres]
      | panicIdParse => simp [parseAll, hres]

theorem parseAll_ok (ls : List String) (recs : List Series)
    (h : parseAll ls = some recs) :
    ls.map Series.fromStr = recs.map ParseResult.ok := by
  induction ls generalizing recs with
  | nil =>
    simp only [parseAll, Option.some.injEq] at h
    subst h; simp
  | cons hd tl ih =>
    cases hres : Series.fromStr hd with
    | ok s =>
      simp only [parseAll, hres] at h
      cases htl : parseAll tl with
      | none => rw [htl] at h; simp at h
      | some ss =>
        rw [htl] at h
        simp at h
        subst h
        simp [hres, ih ss htl]
    | noMatch => simp [parseAll, hres] at h
    | panicMalformedNumber => simp [parseAll, hres] at h
    | panicIdParse => simp [parseAll, hres] at h

/-- C4: if any candidate data line after the initial header run fails to
parse, the whole load aborts (the `unwrap` panic) and no database value at
all is produced — not even one holding the earlier records. -/
theorem c4_failure_aborts_load (ls : List String)
    (h : ∃ l ∈ ls.dropWhile startsWithHash, (Series.fromStr l).isOk = false) :
    loadLines ls = none := by
  rw [loadLines]; exact parseAll_none _ h

theorem c4_witness :
    (∃ l ∈ (["# c", "bad line"].dropWhile startsWithHash),
        (Series.fromStr l).isOk = false) ∧
      loadLines ["# c", "bad line"] = none :=
  ⟨by decide, c4_failure_aborts_load ["# c", "bad line"] (by decide)⟩

/-- C7: the loader skips exactly the initial contiguous run of `#` lines —
a source made of two `#` lines and one valid data line loads to exactly the
one corresponding record — and every loaded database lists, in source order,
exactly the records parsed from the candidate lines. -/
theorem c7_loader_skips_headers (l1 l2 l3 : String) (s : Series)
    (h1 : startsWithHash l1 = true) (h2 : startsWithHash l2 = true)
    (h3 : startsWithHash l3 = false) (h4 : Series.fromStr l3 = .ok s) :
    loadLines [l1, l2, l3] = some [s] ∧
      ∀ ls recs, loadLines ls = some recs →
        (ls.dropWhile startsWithHash).map Series.fromStr = recs.map ParseResult.ok := by
  constructor
  · rw [loadLines]
    simp only [List.dropWhile_cons, h1, h2, h3, if_true, if_false, Bool.false_eq_true]
    simp [parseAll, h4]
  · intro ls recs h
    rw [loadLines] at h
    exact parseAll_ok _ _ h

theorem c7_witness :
    loadLines ["# header one", "# header two", "A000001 ,1,2,"] =
      some [⟨1, [.InRange 1, .InRange 2]⟩] :=
  (c7_loader_skips_headers "# header one" "# header two" "A000001 ,1,2,"
    ⟨1, [.InRange 1, .InRange 2]⟩ (by decide) (by decide) (by decide) (by decide)).1

/-! ### Lines without the pattern -/

theorem regexCaptures_eq_none (l : List Char)
    (h : ∀ i, tryMatch (l.drop i) = none) : regexCaptures l = none := by
  induction l with
  | nil => rfl
  | cons c rest ih =>
    have h0 := h 0
    rw [List.drop_zero] at h0
    rw [regexCaptures, h0]
    exact ih (fun i => by have hi := h (i + 1); rwa [List.drop_succ_cons] at hi)

/-- C5 (amended): a line not containing the pattern anywhere fails with the
grammar-mismatch outcome — which, like Rust's `Err(())`, carries no payload —
and no partial record is produced. -/
theorem c5_no_match_fails (line : String)
    (h : ∀ i, tryMatch (line.data.drop i) = none) :
    Series.fromStr line = .noMatch := by
  rw [Series.fromStr, regexCaptures_eq_none _ h]

theorem c5_witness : Series.fromStr "bbb" = ParseResult.noMatch :=
  c5_no_match_fails "bbb" (by
    intro i
    rcases i with _ | _ | _ | n
    · rfl
    · rfl
    · rfl
    · have hlen : ("bbb".data).length = 3 := rfl
      rw [List.drop_eq_nil_of_le (by rw [hlen]; omega)]
      rfl)

/-- C5 counterexample: two different unmatched lines produce the very same
failure value, so the failure cannot carry the raw line or its index — the
Rust error type of `Series::from_str` is `()`. -/
theorem c5_counterexample :
    Series.fromStr "one unmatched line" = Series.fromStr "another" ∧
      Series.fromStr "another" = ParseResult.noMatch ∧
      "one unmatched line" ≠ "another" := by decide

/-- C3: evaluation of the parser at the failing input `"A000001 ?,"`.  The
character class `[,\-?\d*,]` admits `?` as a literal member, the line is
accepted by the pattern, and the captured segment `?` is not a decimal
integer, so the classifier's malformed-number panic is reached. -/
theorem c3_malformed_number_reachable :
    Series.fromStr "A000001 ?," = ParseResult.panicMalformedNumber := by decide

/-- C6: empty comma segments are discarded, not treated as zero: the line
`A000002 ,,5,,9,` parses to exactly the terms 5 and 9 in order; on the
captured term list `,,5,,9` the split-and-filter keeps exactly the segments
`5` and `9`; and the classifier, had an empty segment reached it, would have
panicked rather than produced a zero. -/
theorem c6_empty_segments_dropped :
    Series.fromStr "A000002 ,,5,,9," = .ok ⟨2, [.InRange 5, .InRange 9]⟩ ∧
      (splitComma ",,5,,9".data).filter (fun seg => !seg.isEmpty) = [['5'], ['9']] ∧
      classify "" = none := by decide

/-! ### The captured identifier group -/

theorem tryMatch_shape (l ds vs : List Char) (h : tryMatch l = some (ds, vs)) :
    ds.length = 6 ∧ ds.all regexDigit = true := by
  cases l with
  | nil => simp [tryMatch] at h
  | cons c rest =>
    simp only [tryMatch] at h
    by_cases hA : c = 'A'
    · rw [if_pos hA] at h
      by_cases hcond : ((rest.take 6).length = 6 && (rest.take 6).all regexDigit) = true
      · rw [if_pos hcond] at h
        rw [Bool.and_eq_true, decide_eq_true_eq] at hcond
        by_cases hsp : (rest.drop 6).head? = some ' '
        · rw [if_pos hsp] at h
          cases hv : valsEnd (((rest.drop 6).tail).takeWhile inClass) with
          | none => rw [hv] at h; simp at h
          | some k =>
            rw [hv] at h
            simp only [Option.some.injEq, Prod.mk.injEq] at h
            rw [← h.1]
            exact hcond
        · rw [if_neg hsp] at h; simp at h
      · rw [if_neg hcond] at h; simp at h
    · rw [if_neg hA] at h; simp at h

theorem regexCaptures_shape (l ds vs : List Char)
    (h : regexCaptures l = some (ds, vs)) :
    ds.length = 6 ∧ ds.all regexDigit = true := by
  induction l with
  | nil => simp [regexCaptures] at h
  | cons c rest ih =>
    rw [regexCaptures] at h
    cases htm : tryMatch (c :: rest) with
    | some m =>
      rw [htm] at h
      simp only [Option.some.injEq] at h
      subst h
      exact tryMatch_shape _ _ _ htm
    | none =>
      rw [htm] at h
      exact ih h

theorem parseDigitsAux_all_digits (l : List Char) :
    ∀ acc n, parseDigitsAux acc l = some n → l.all isDigitB = true := by
  induction l with
  | nil => intro acc n _; rfl
  | cons c cs ih =>
    intro acc n h
    rw [parseDigitsAux] at h
    split_ifs at h with hc
    rw [List.all_cons, hc, Bool.true_and]
    exact ih _ _ h

theorem parseAsciiDigits_some (l : List Char) (n : Nat)
    (h : parseAsciiDigits l = some n) :
    l ≠ [] ∧ l.all isDigitB = true ∧ n = decValue l := by
  cases l with
  | nil => simp [parseAsciiDigits] at h
  | cons c cs =>
    have hall : (c :: cs).all isDigitB = true :=
      parseDigitsAux_all_digits (c :: cs) 0 n h
    refine ⟨by simp, hall, ?_⟩
    have he := parseAsciiDigits_eq (c :: cs) (by simp) hall
    rw [he] at h
    simp at h
    exact h.symm

/-- C10 (amended): the captured identifier group is always exactly six
decimal digits (Unicode Nd), and every constructed record has an identifier
of at most 999999 — a record is only constructed when `parse::<u32>()` on
the group succeeds, which forces the six digits to be ASCII and the value
below 10^6.  The `u32` conversion itself can fail: a line whose identifier
group uses non-ASCII decimal digits is accepted by the pattern but panics
at the conversion (see the counterexample). -/
theorem c10_id_six_digits (line : String) :
    (∀ s : Series, Series.fromStr line = .ok s → s.id ≤ 999999) ∧
      ∀ ds vs, regexCaptures line.data = some (ds, vs) →
        ds.length = 6 ∧ ds.all regexDigit = true := by
  rw [Series.fromStr]
  cases hc : regexCaptures line.data with
  | none =>
    refine ⟨fun s h => by simp at h, fun ds vs hcc => by simp at hcc⟩
  | some m =>
    obtain ⟨ds, vs⟩ := m
    have hshape := regexCaptures_shape _ _ _ hc
    refine ⟨?_, ?_⟩
    · cases hid : parseIdNat ds with
      | none =>
        simp only [hid]
        intro s h
        simp at h
      | some n =>
        simp only [hid]
        cases hca : classifyAll ((splitComma vs).filter (fun seg => !seg.isEmpty)) with
        | none => simp only [hca]; intro s h; simp at h
        | some values =>
          simp only [hca]
          intro s h
          have hs : (⟨n, values⟩ : Series) = s := by simpa using h
          rw [parseIdNat] at hid
          cases hpd : parseAsciiDigits ds with
          | none => rw [hpd] at hid; simp at hid
          | some m2 =>
            rw [hpd] at hid
            simp only [Option.some_bind] at hid
            split_ifs at hid with hran
            simp only [Option.some.injEq] at hid
            obtain ⟨hne, hall, hval⟩ := parseAsciiDigits_some ds m2 hpd
            have hd := decValue_lt ds hall
            rw [hshape.1] at hd
            norm_num at hd
            rw [← hs]
            show n ≤ 999999
            omega
    · intro ds2 vs2 hcc
      simp only [Option.some.injEq, Prod.mk.injEq] at hcc
      obtain ⟨h1, h2⟩ := hcc
      rw [← h1]
      exact hshape

/-- C10 counterexample: the six Arabic-Indic digits U+0661..U+0666 satisfy
the Unicode-aware `\d{6}`, so the pattern accepts this line, but
`parse::<u32>()` on the captured group accepts ASCII digits only, and the
`unwrap()` on it panics — the id conversion can fail. -/
theorem c10_counterexample :
    Series.fromStr "A١٢٣٤٥٦ ,1," = ParseResult.panicIdParse := by decide

theorem c10_witness :
    Series.fromStr "A344199 ,18," = .ok ⟨344199, [.InRange 18]⟩ ∧
      (344199 : Nat) ≤ 999999 :=
  ⟨by decide,
    (c10_id_six_digits "A344199 ,18,").1 ⟨344199, [.InRange 18]⟩ (by decide)⟩

/-! ### Decimal formatting and the round-trip property -/

theorem isDigitB_digitToChar (d : Nat) : isDigitB (digitToChar d) = true := by
  unfold digitToChar
  split_ifs <;> decide

theorem charDigit_digitToChar (d : Nat) (h : d ≤ 9) :
    charDigit (digitToChar d) = d := by
  unfold digitToChar
  split_ifs with h0 h1 h2 h3 h4 h5 h6 h7 h8
  · subst h0; rfl
  · subst h1; rfl
  · subst h2; rfl
  · subst h3; rfl
  · subst h4; rfl
  · subst h5; rfl
  · subst h6; rfl
  · subst h7; rfl
  · subst h8; rfl
  · have h9 : d = 9 := by omega
    subst h9; rfl

theorem natDecChars_ne_nil (n : Nat) : natDecChars n ≠ [] := by
  unfold natDecChars
  split_ifs with h
  · simp
  · rcases hd : Nat.digits 10 n with _ | ⟨a, l⟩
    · exact absurd hd (Nat.digits_ne_nil_iff_ne_zero.mpr h)
    · simp

theorem natDecChars_all (n : Nat) : (natDecChars n).all isDigitB = true := by
  unfold natDecChars
  split_ifs with h
  · decide
  · rw [List.all_eq_true]
    intro c hc
    rw [List.mem_map] at hc
    obtain ⟨d, _, hd⟩ := hc
    rw [← hd]
    exact isDigitB_digitToChar d

theorem decValue_natDecChars (n : Nat) : decValue (natDecChars n) = n := by
  unfold natDecChars
  split_ifs with h
  · subst h; decide
  · unfold decValue
    rw [List.map_map]
    have hmap : ((Nat.digits 10 n).reverse).map (charDigit ∘ digitToChar)
        = ((Nat.digits 10 n).reverse).map id := by
      apply List.map_congr_left
      intro d hd
      have hdm : d ∈ Nat.digits 10 n := List.mem_reverse.mp hd
      have hlt : d < 10 := Nat.digits_lt_base (by norm_num) hdm
      simp [Function.comp, charDigit_digitToChar d (by omega)]
    rw [hmap, List.map_id, List.reverse_reverse, Nat.ofDigits_digits]

theorem isSignedDecimal_intDecChars (v : Int) :
    isSignedDecimal (intDecChars v) = true := by
  unfold intDecChars
  split_ifs with hv
  · rw [isSignedDecimal, if_pos rfl, Bool.and_eq_true]
    refine ⟨?_, natDecChars_all v.natAbs⟩
    cases hne : natDecChars v.natAbs with
    | nil => exact absurd hne (natDecChars_ne_nil v.natAbs)
    | cons a l => simp
  · cases hne : natDecChars v.natAbs with
    | nil => exact absurd hne (natDecChars_ne_nil v.natAbs)
    | cons a l =>
      have hall := natDecChars_all v.natAbs
      rw [hne] at hall
      have ha : isDigitB a = true := by
        rw [List.all_cons, Bool.and_eq_true] at hall; exact hall.1
      rw [isSignedDecimal, if_neg (isDigitB_ne_minus a ha)]
      exact hall

theorem strMathVal_intDecChars (v : Int) : strMathVal (intDecChars v) = v := by
  unfold intDecChars
  split_ifs with hv
  · rw [strMathVal, if_pos rfl, decValue_natDecChars]
    omega
  · cases hne : natDecChars v.natAbs with
    | nil => exact absurd hne (natDecChars_ne_nil v.natAbs)
    | cons a l =>
      have hall := natDecChars_all v.natAbs
      rw [hne] at hall
      have ha : isDigitB a = true := by
        rw [List.all_cons, Bool.and_eq_true] at hall; exact hall.1
      rw [strMathVal, if_neg (isDigitB_ne_minus a ha), ← hne,
        decValue_natDecChars]
      omega

/-- C8 (amended): the round-trip holds for every `NumberValue` whose payload
respects its variant's range — `InRange v` with `v` in the 128-bit window
(which the Rust `i128` type guarantees) and `OutOfRange v` with `v` outside
it (the only `OutOfRange` values the classifier ever produces): formatting
to decimal text and re-classifying returns the same variant and value. -/
theorem c8_roundtrip_respecting_range (v : Int) :
    (i128Min ≤ v → v ≤ i128Max →
        classify (formatValue (.InRange v)) = some (.InRange v)) ∧
      (v < i128Min ∨ i128Max < v →
        classify (formatValue (.OutOfRange v)) = some (.OutOfRange v)) := by
  constructor
  · intro h1 h2
    have hdata : classify (formatValue (.InRange v)) = classifySeg (intDecChars v) := rfl
    rw [hdata,
      classifySeg_in _ (isSignedDecimal_intDecChars v)
        (by rw [strMathVal_intDecChars]; exact h1)
        (by rw [strMathVal_intDecChars]; exact h2),
      strMathVal_intDecChars]
  · intro hout
    have hdata : classify (formatValue (.OutOfRange v)) = classifySeg (intDecChars v) := rfl
    rw [hdata,
      classifySeg_out _ (isSignedDecimal_intDecChars v)
        (by rw [strMathVal_intDecChars]; exact hout),
      strMathVal_intDecChars]

theorem c8_witness :
    i128Min ≤ (5 : Int) ∧
      classify (formatValue (.InRange 5)) = some (.InRange 5) :=
  ⟨by decide, (c8_roundtrip_respecting_range 5).1 (by decide) (by decide)⟩

/-- C8 counterexample: `OutOfRange 5` — constructible because the `BigInt`
payload is unrestricted — formats to `"5"` and re-classifies as `InRange 5`,
a different variant, so the round-trip does not hold for every value of
either variant. -/
theorem c8_counterexample :
    classify (formatValue (NumberValue.OutOfRange 5)) = some (.InRange 5) ∧
      NumberValue.OutOfRange 5 ≠ NumberValue.InRange 5 := by
  constructor
  · have hdata : classify (formatValue (NumberValue.OutOfRange 5))
        = classifySeg (intDecChars 5) := rfl
    rw [hdata,
      classifySeg_in _ (isSignedDecimal_intDecChars 5)
        (by rw [strMathVal_intDecChars]; decide)
        (by rw [strMathVal_intDecChars]; decide),
      strMathVal_intDecChars]
  · simp

/-- C9 counterexample: under the derived `PartialEq`, `InRange 5` and
`OutOfRange 5` do not compare equal although they denote the same number. -/
theorem c9_counterexample :
    NumberValue.derivedEq (.InRange 5) (.OutOfRange 5) = false ∧
      NumberValue.derivedEq (.OutOfRange 5) (.InRange 5) = false := by decide

/-- C9 (amended): equality on `NumberValue` is representational, not
value-based — cross-variant comparisons are always false, even for equal
numeric values, while within a variant equality coincides with numeric
equality. -/
theorem c9_derived_eq_representational (a b : Int) :
    NumberValue.derivedEq (.InRange a) (.OutOfRange b) = false ∧
      NumberValue.derivedEq (.OutOfRange a) (.InRange b) = false ∧
      (NumberValue.derivedEq (.InRange a) (.InRange b) = true ↔ a = b) ∧
      (NumberValue.derivedEq (.OutOfRange a) (.OutOfRange b) = true ↔ a = b) := by
  refine ⟨rfl, rfl, ?_, ?_⟩ <;> simp [NumberValue.derivedEq]

theorem c9_witness :
    NumberValue.derivedEq (.InRange 7) (.OutOfRange 7) = false :=
  (c9_derived_eq_representational 7 7).1
